import Mathlib

/-!
Verification development for the SMR-Agents repository.

Shallow embedding of the core components the claims speak about:
the knowledge-base entity index (`knowledge_base/preprocessor.py`),
the knowledge retriever (`knowledge_base/retriever.py`),
the result-ledger writer (`utils/output_utils.py`), and the
consensus orchestrator's review loop and per-item error boundary
(`scripts/SMRAgents.py`).

External collaborators are modelled as opaque parameters: the
language/vision model invocation (`l_engine.get_response`) is an
arbitrary function from prompt text to response text, prompt
construction is an arbitrary pure formatting function, and the
TF-IDF cosine-similarity scores produced by sklearn (floating point)
enter the retriever as an abstract list of rational scores, one per
indexed entity.  All selection, indexing, slicing and control-flow
logic is translated exactly from the Python source.
-/

namespace SMR

/-! ## Python string primitives

`strFind hay needle` models Python `hay.find(needle)` (character
positions, `none` for not-found); `strContains hay needle` models
`needle in hay`; `strSlice s a b` models `s[a:b]` for `0 ≤ a ≤ b`. -/

def findSubAux (needle : List Char) : List Char → Nat → Option Nat
  | [], n => if needle = [] then some n else none
  | c :: rest, n =>
    if needle.isPrefixOf (c :: rest) then some n
    else findSubAux needle rest (n + 1)

def strFind (hay needle : String) : Option Nat :=
  findSubAux needle.toList hay.toList 0

def strContains (hay needle : String) : Bool :=
  (strFind hay needle).isSome

def strSlice (s : String) (a b : Nat) : String :=
  String.mk ((s.toList.take b).drop a)

/-- Python `s.lower()` (ASCII): lower-case each character. -/
def strLower (s : String) : String :=
  String.mk (s.toList.map Char.toLower)

/-! ## Data model: triplets and the entity index

`Triplet` is `(subject, predicate, object)` (§3 of the spec,
`knowledge_base/preprocessor.py`).  The Python entity index is a
`dict` from entity string to a list of triplets; we model it as an
association list with unique keys, new keys appended at the end,
which is exactly the insertion-order semantics of a Python dict. -/

abbrev Triplet := String × String × String

abbrev EntityIndex := List (String × List Triplet)

/-- Python `entity_index[key].append(t)`, creating the key if absent
(Python dict: existing key keeps its position, new key goes last). -/
def indexAdd (index : EntityIndex) (key : String) (t : Triplet) : EntityIndex :=
  match index with
  | [] => [(key, [t])]
  | (k, bucket) :: rest =>
    if k = key then (k, bucket ++ [t]) :: rest
    else (k, bucket) :: indexAdd rest key t

/-- Embeds `KnowledgeBasePreprocessor.create_entity_index`
(`knowledge_base/preprocessor.py`, lines 121-146): for each triplet in
store order, append it to the bucket of its subject, then to the
bucket of its object. -/
def create_entity_index (triplets : List Triplet) : EntityIndex :=
  triplets.foldl (fun idx t => indexAdd (indexAdd idx t.1 t) t.2.2 t) []

/-- Python `entity_index[e]` when `e in entity_index`, else `none`. -/
def lookupIndex (index : EntityIndex) (e : String) : Option (List Triplet) :=
  match index with
  | [] => none
  | (k, bucket) :: rest => if k = e then some bucket else lookupIndex rest e

/-- The bucket of `e`, empty when `e` is not a key. -/
def bucketOf (index : EntityIndex) (e : String) : List Triplet :=
  (lookupIndex index e).getD []

/-- The occurrences of entity `e` in the store, in store order: each
triplet mentioning `e` as subject and/or object contributes one copy
per mention (so a triplet with subject = object = `e` appears twice). -/
def occList (triplets : List Triplet) (e : String) : List Triplet :=
  triplets.flatMap fun t =>
    (if t.1 = e then [t] else []) ++ (if t.2.2 = e then [t] else [])

/-! ## Knowledge retriever (`knowledge_base/retriever.py`)

The cosine similarities of the (normalized) query against the indexed
entity embeddings are computed externally by sklearn in floating
point; the retriever model receives them as a list `sims : List ℚ`,
`sims[i]` being the similarity of the query to `entity_list[i]`.
`np.argsort` with its default `kind='quicksort'` is only specified up
to tie order (the sort is not stable above numpy's small-sort
threshold); to keep the model an executable function we fix one
admissible outcome, ascending by value with ties by original index
(the outcome numpy's insertion sort produces at small array sizes),
realised with `List.insertionSort` under the lexicographic order
(value, then index).  The fixed tie order is a model artifact: the
general theorems below use only that `argsort` is a permutation of
the index range sorted by value, never the tie order, which the
program does not guarantee. -/

/-- Ascending order by similarity value, ties by original index: one
admissible outcome of `np.argsort` (the unstable sort fixes no tie
order; this is the tie order of numpy's small-array insertion
sort). -/
def argsortRel (sims : List ℚ) (i j : Nat) : Prop :=
  sims.getD i 0 < sims.getD j 0 ∨ (sims.getD i 0 = sims.getD j 0 ∧ i ≤ j)

instance (sims : List ℚ) : DecidableRel (argsortRel sims) := fun i j => by
  unfold argsortRel
  infer_instance

/-- Model of `np.argsort(sims)`: indices `0..len-1` sorted by
ascending similarity value (tie order fixed as above only to make the
model executable). -/
def argsort (sims : List ℚ) : List Nat :=
  (List.range sims.length).insertionSort (argsortRel sims)

/-- Python `l[-k:]`: for `k = 0` the slice `[-0:]` is `[0:]`, i.e. the
whole list; for `k ≥ 1` it is the last `min k len` elements. -/
def pySliceLast {α : Type} (l : List α) (k : Nat) : List α :=
  if k = 0 then l else l.drop (l.length - k)

/-- The indices the loop of `find_similar_entities` keeps
(`retriever.py` lines 117-124): `np.argsort(similarities)[-top_k:][::-1]`,
then only those whose similarity exceeds the `0.3` threshold. -/
def similarIdx (sims : List ℚ) (top_k : Nat) : List Nat :=
  ((pySliceLast (argsort sims) top_k).reverse).filter fun i =>
    decide ((3 : ℚ)/10 < sims.getD i 0)

/-- Embeds `KnowledgeBaseRetriever.find_similar_entities`
(`retriever.py` lines 98-124): returns `(entity_list[idx],
similarities[idx])` for each kept index, in kept order. -/
def find_similar_entities (entity_list : List String) (sims : List ℚ)
    (top_k : Nat) : List (String × ℚ) :=
  (similarIdx sims top_k).map fun i => (entity_list.getD i "", sims.getD i 0)

/-- The retriever's state after `_load_processed_data` and
`_build_semantic_index`: the triplet store, the entity index,
and the externally computed similarity scores `sim q` of a query `q`
against `entity_list = list(entity_index.keys())`. -/
structure Retriever where
  triplets : List Triplet
  entity_index : EntityIndex
  sim : String → List ℚ

/-- Python `self.entity_list = list(self.entity_index.keys())`. -/
def Retriever.entity_list (r : Retriever) : List String :=
  r.entity_index.map Prod.fst

/-- Embeds `KnowledgeBaseRetriever.retrieve_entity_knowledge`
(`retriever.py` lines 126-153): take up to `max_triplets // 2` from
the exact bucket, then for each of the top-3 similar entities take up
to `remaining_slots // len(similar_entities)` from its bucket while
slots remain, and truncate to `max_triplets`. -/
def retrieve_entity_knowledge (r : Retriever) (entity : String)
    (max_triplets : Nat) : List Triplet :=
  let retrieved :=
    match lookupIndex r.entity_index entity with
    | some bucket => bucket.take (max_triplets / 2)
    | none => []
  let similar_entities := find_similar_entities r.entity_list (r.sim entity) 3
  let retrieved := similar_entities.foldl (fun acc se =>
    match lookupIndex r.entity_index se.1 with
    | some bucket =>
      let remaining_slots := max_triplets - acc.length
      if remaining_slots > 0 then
        acc ++ bucket.take (remaining_slots / similar_entities.length)
      else acc
    | none => acc) retrieved
  retrieved.take max_triplets

/-- The match condition of `retrieve_relationship_knowledge`
(`retriever.py` lines 173-177): the predicates are case-insensitive
substring matches of each other in either direction, and (query
subject vs stored subject, or query object vs stored object)
likewise. -/
def rel_match (subject predicate obj : String) (t : Triplet) : Bool :=
  (strContains (strLower t.2.1) (strLower predicate) ||
   strContains (strLower predicate) (strLower t.2.1)) &&
  (strContains (strLower t.1) (strLower subject) ||
   strContains (strLower subject) (strLower t.1) ||
   strContains (strLower t.2.2) (strLower obj) ||
   strContains (strLower obj) (strLower t.2.2))

/-- Embeds `KnowledgeBaseRetriever.retrieve_relationship_knowledge`
(`retriever.py` lines 155-180): scan the store appending matches,
then return the first 5. -/
def retrieve_relationship_knowledge (triplets : List Triplet)
    (subject predicate obj : String) : List Triplet :=
  (triplets.foldl (fun acc t =>
    if rel_match subject predicate obj t then acc ++ [t] else acc) []).take 5

/-! ## Result ledger (`utils/output_utils.py`)

The on-disk JSON array is modelled as the list of its entries; the
read-modify-write of `format_json_out_put` becomes a pure state
transformation. -/

structure Entry where
  index : Nat
  question : String
  ground_truth : String
  prediction : String
deriving DecidableEq

/-- The update loop of `format_json_out_put` (lines 33-41): replace
the first entry with the same index, else append at the end. -/
def upsertList (results : List Entry) (result : Entry) : List Entry :=
  match results with
  | [] => [result]
  | r :: rs =>
    if r.index = result.index then result :: rs
    else r :: upsertList rs result

/-- Embeds `format_json_out_put(question, ground_truth, prediction, idx,
output_path)` (`output_utils.py` lines 16-48): upsert the entry, then
`results.sort(key=lambda x: x["index"])` (Python sort: stable,
ascending by index). -/
def format_json_out_put (question ground_truth prediction : String)
    (idx : Nat) (results : List Entry) : List Entry :=
  (upsertList results ⟨idx, question, ground_truth, prediction⟩).insertionSort
    fun a b => a.index ≤ b.index

/-! ## Consensus orchestrator (`scripts/SMRAgents.py`)

The language-model engine is opaque (`l_get_response : String →
String`), prompt construction is opaque pure formatting, and
`update_specialist_opinions` (lines 182-221, regex-driven text
surgery plus per-specialist model calls) is opaque as well: the
claims under verification are insensitive to all three, and depend
only on the convergence test and the loop control translated below. -/

structure Ctx where
  l_get_response : String → String
  get_expert_evaluation_prompt : String → String → String → String → String
  get_expert_evaluation_followup_prompt : String → String → String → String → String
  get_diagnostic_reassessment_prompt : String → String → String → String
  update_specialist_opinions : String → String → String → String → String

/-- The review-evaluation text obtained at the start of
`process_feedback_iteration` (`SMRAgents.py` lines 139-148). -/
def evaluation_text (c : Ctx) (question description experts_opinions
    expert_diagnosis : String) (iteration : Nat) : String :=
  if iteration = 0 then
    c.l_get_response
      (c.get_expert_evaluation_prompt question description expert_diagnosis experts_opinions)
  else
    c.l_get_response
      (c.get_expert_evaluation_followup_prompt question description experts_opinions expert_diagnosis)

/-- Embeds `SMRAgents.process_feedback_iteration` (`SMRAgents.py` lines
123-180).  Returns `(experts_opinions, expert_diagnosis,
continue_iteration)`. -/
def process_feedback_iteration (c : Ctx) (question description
    experts_opinions expert_diagnosis : String) (iteration : Nat) :
    String × String × Bool :=
  let expert_evaluation :=
    evaluation_text c question description experts_opinions expert_diagnosis iteration
  if strContains (strLower expert_evaluation) "all opinions are consistent" then
    (experts_opinions, expert_diagnosis, false)
  else
    let experts_opinions :=
      if strContains expert_evaluation "Feedback to Specialist Experts:" then
        let feedback_start :=
          (strFind expert_evaluation "Feedback to Specialist Experts:").getD 0
        let feedback_end :=
          match strFind expert_evaluation "Feedback to Diagnostic Specialist:" with
          | some n => n
          | none => expert_evaluation.length
        let feedback_to_specialists :=
          (strSlice expert_evaluation feedback_start feedback_end).trim
        if feedback_to_specialists ≠ "" then
          c.update_specialist_opinions question description experts_opinions
            feedback_to_specialists
        else experts_opinions
      else experts_opinions
    let expert_diagnosis :=
      if strContains expert_evaluation "Feedback to Diagnostic Specialist:" then
        c.l_get_response
          (c.get_diagnostic_reassessment_prompt question description experts_opinions)
      else expert_diagnosis
    (experts_opinions, expert_diagnosis, true)

/-- The literal `max_iterations = 3` (`SMRAgents.py` line 261). -/
def max_iterations : Nat := 3

/-- The review loop of `SMRAgents.run` (lines 262-268):
`for iteration in range(fuel)` starting at loop index `i`, breaking
when `should_continue` is false.  Returns the final
`(experts_opinions, expert_diagnosis)` and the number of review
passes actually performed. -/
def feedback_loop (c : Ctx) (question description : String) :
    Nat → Nat → String × String → (String × String) × Nat
  | 0, _, st => (st, 0)
  | fuel + 1, i, (op, dg) =>
    let step := process_feedback_iteration c question description op dg i
    if step.2.2 then
      let rest := feedback_loop c question description fuel (i + 1) (step.1, step.2.1)
      (rest.1, rest.2 + 1)
    else ((step.1, step.2.1), 1)

/-- Step 5 of `SMRAgents.run`: the full review phase, `max_iterations`
iterations available, loop index starting at 0. -/
def run_review_phase (c : Ctx) (question description experts_opinions
    expert_diagnosis : String) : (String × String) × Nat :=
  feedback_loop c question description max_iterations 0
    (experts_opinions, expert_diagnosis)

/-! ## Per-item boundary of `SMRAgents.run` (lines 232-290)

`dataset idx` yields the `(question, answer)` pair of an item;
`process idx` is the whole per-item pipeline (steps 1-6, all model
calls included), which either produces a final answer or raises — an
exception is modelled as `Except.error msg` with `str(e) = msg`.  The
`except` branch records `"Error: " ++ msg` for the item and the outer
`for` loop continues with the next index. -/

def process_item (dataset : Nat → String × String)
    (process : Nat → Except String String) (ledger : List Entry)
    (idx : Nat) : List Entry :=
  let qa := dataset idx
  match process idx with
  | .ok final_answer => format_json_out_put qa.1 qa.2 final_answer idx ledger
  | .error e => format_json_out_put qa.1 qa.2 ("Error: " ++ e) idx ledger

/-- The inner `for idx in todo_list` loop of `SMRAgents.run`. -/
def run_items (dataset : Nat → String × String)
    (process : Nat → Except String String) (todo_list : List Nat)
    (ledger : List Entry) : List Entry :=
  todo_list.foldl (process_item dataset process) ledger

/-! ## Claim-side and witness instances -/

/-- The relationship-match condition as the claim (C9) words it: the
stored subject OR stored object is a case-insensitive substring match
(either direction) with the query subject OR query object.  This is
the comparison point for the code's `rel_match`, which only compares
stored subject against query subject and stored object against query
object. -/
def rel_match_claim (subject predicate obj : String) (t : Triplet) : Bool :=
  (strContains (strLower t.2.1) (strLower predicate) ||
   strContains (strLower predicate) (strLower t.2.1)) &&
  (strContains (strLower t.1) (strLower subject) ||
   strContains (strLower subject) (strLower t.1) ||
   strContains (strLower t.1) (strLower obj) ||
   strContains (strLower obj) (strLower t.1) ||
   strContains (strLower t.2.2) (strLower subject) ||
   strContains (strLower subject) (strLower t.2.2) ||
   strContains (strLower t.2.2) (strLower obj) ||
   strContains (strLower obj) (strLower t.2.2))

/-- A model oracle whose review evaluation always declares
convergence; used to witness the convergence claim. -/
def consistentCtx : Ctx :=
  ⟨fun _ => "All opinions are consistent.",
   fun _ _ _ _ => "", fun _ _ _ _ => "", fun _ _ _ => "", fun _ _ _ _ => ""⟩

/-- First triplet of the concrete scenario of the spec (§8). -/
def t_lung1 : Triplet := ("lung nodule", "located_in", "right lung")

/-- Second triplet of the concrete scenario of the spec (§8). -/
def t_lung2 : Triplet := ("lung nodule", "has_size", "2cm")

/-- The entity index built from the two scenario triplets. -/
def lungIndex : EntityIndex := create_entity_index [t_lung1, t_lung2]

/-- The scenario retriever, parametrized by the external similarity
scores: `sim q` lists the cosine similarity of query `q` against
`entity_list = ["lung nodule", "right lung", "2cm"]`. -/
def lungRetriever (sim : String → List ℚ) : Retriever :=
  ⟨[t_lung1, t_lung2], lungIndex, sim⟩

/-! ## Helper lemmas -/

theorem feedback_loop_count_le (c : Ctx) (q d : String) :
    ∀ (fuel i : Nat) (st : String × String),
      (feedback_loop c q d fuel i st).2 ≤ fuel := by
  intro fuel
  induction fuel with
  | zero => intro i st; simp [feedback_loop]
  | succ n ih =>
    intro i st
    obtain ⟨op, dg⟩ := st
    simp only [feedback_loop]
    split
    · exact Nat.succ_le_succ (ih (i + 1) _)
    · show 1 ≤ n + 1
      omega

theorem foldl_append_eq_filter {α : Type} (p : α → Bool) :
    ∀ (l acc : List α),
      l.foldl (fun acc t => if p t then acc ++ [t] else acc) acc =
        acc ++ l.filter p := by
  intro l
  induction l with
  | nil => intro acc; simp
  | cons t ts ih =>
    intro acc
    by_cases h : p t
    · simp [List.foldl_cons, h, ih, List.filter_cons]
    · simp [List.foldl_cons, h, ih, List.filter_cons]

theorem mem_upsertList (L : List Entry) (e : Entry) : e ∈ upsertList L e := by
  induction L with
  | nil => simp [upsertList]
  | cons r rs ih =>
    by_cases h : r.index = e.index
    · simp [upsertList, h]
    · simp only [upsertList, if_neg h, List.mem_cons]
      exact Or.inr ih

theorem format_json_perm (question ground_truth prediction : String)
    (idx : Nat) (L : List Entry) :
    (format_json_out_put question ground_truth prediction idx L).Perm
      (upsertList L ⟨idx, question, ground_truth, prediction⟩) :=
  List.perm_insertionSort _ _

theorem mem_format_json_out_put (question ground_truth prediction : String)
    (idx : Nat) (L : List Entry) :
    (⟨idx, question, ground_truth, prediction⟩ : Entry) ∈
      format_json_out_put question ground_truth prediction idx L :=
  ((format_json_perm question ground_truth prediction idx L).mem_iff).2
    (mem_upsertList L _)

theorem upsertList_keys (L : List Entry) (e : Entry) :
    ∀ x ∈ (upsertList L e).map Entry.index,
      x ∈ L.map Entry.index ∨ x = e.index := by
  induction L with
  | nil =>
    intro x hx
    simp [upsertList] at hx
    exact Or.inr hx
  | cons r rs ih =>
    intro x hx
    by_cases h : r.index = e.index
    · simp only [upsertList, if_pos h, List.map_cons, List.mem_cons] at hx ⊢
      tauto
    · simp only [upsertList, if_neg h, List.map_cons, List.mem_cons] at hx ⊢
      rcases hx with h1 | h1
      · tauto
      · have := ih x h1
        tauto

theorem upsertList_nodup (L : List Entry) (e : Entry)
    (h : (L.map Entry.index).Nodup) :
    ((upsertList L e).map Entry.index).Nodup := by
  induction L with
  | nil => simp [upsertList]
  | cons r rs ih =>
    simp only [List.map_cons, List.nodup_cons] at h
    by_cases hr : r.index = e.index
    · simp only [upsertList, if_pos hr, List.map_cons, List.nodup_cons]
      exact ⟨hr ▸ h.1, h.2⟩
    · simp only [upsertList, if_neg hr, List.map_cons, List.nodup_cons]
      refine ⟨fun hmem => ?_, ih h.2⟩
      rcases upsertList_keys rs e r.index hmem with h1 | h1
      · exact h.1 h1
      · exact hr h1

theorem upsertList_filter (L : List Entry) (e : Entry)
    (h : (L.map Entry.index).Nodup) :
    (upsertList L e).filter (fun r => decide (r.index = e.index)) = [e] := by
  induction L with
  | nil => simp [upsertList]
  | cons r rs ih =>
    simp only [List.map_cons, List.nodup_cons] at h
    by_cases hr : r.index = e.index
    · simp only [upsertList, if_pos hr, List.filter_cons]
      rw [if_pos (by simp)]
      have hnil : rs.filter (fun r => decide (r.index = e.index)) = [] := by
        rw [List.filter_eq_nil_iff]
        intro a ha
        simp only [decide_eq_true_eq]
        intro hae
        apply h.1
        have hm := List.mem_map_of_mem Entry.index ha
        rwa [hae, ← hr] at hm
      simp [hnil]
    · simp only [upsertList, if_neg hr, List.filter_cons]
      rw [if_neg (by simp [hr])]
      exact ih h.2

theorem format_json_nodup (question ground_truth prediction : String)
    (idx : Nat) (L : List Entry) (h : (L.map Entry.index).Nodup) :
    ((format_json_out_put question ground_truth prediction idx L).map
      Entry.index).Nodup :=
  ((format_json_perm question ground_truth prediction idx L).map
    Entry.index).symm.nodup
      (upsertList_nodup L ⟨idx, question, ground_truth, prediction⟩ h)

theorem format_json_filter (question ground_truth prediction : String)
    (idx : Nat) (L : List Entry) (h : (L.map Entry.index).Nodup) :
    (format_json_out_put question ground_truth prediction idx L).filter
        (fun r => decide (r.index = idx)) =
      [⟨idx, question, ground_truth, prediction⟩] := by
  have h2 : (upsertList L ⟨idx, question, ground_truth, prediction⟩).filter
      (fun r => decide (r.index = idx)) =
      [⟨idx, question, ground_truth, prediction⟩] :=
    upsertList_filter L ⟨idx, question, ground_truth, prediction⟩ h
  have hp := (format_json_perm question ground_truth prediction idx L).filter
    (fun r => decide (r.index = idx))
  rw [h2] at hp
  exact List.perm_singleton.1 hp

theorem format_json_sorted (question ground_truth prediction : String)
    (idx : Nat) (L : List Entry) :
    (format_json_out_put question ground_truth prediction idx L).Pairwise
      (fun a b => a.index ≤ b.index) :=
  @List.sorted_insertionSort Entry (fun a b => a.index ≤ b.index) _
    ⟨fun a b => Nat.le_total a.index b.index⟩
    ⟨fun _ _ _ h1 h2 => Nat.le_trans h1 h2⟩
    (upsertList L ⟨idx, question, ground_truth, prediction⟩)

theorem argsortRel_total (sims : List ℚ) (i j : Nat) :
    argsortRel sims i j ∨ argsortRel sims j i := by
  unfold argsortRel
  rcases lt_trichotomy (sims.getD i 0) (sims.getD j 0) with h | h | h
  · exact Or.inl (Or.inl h)
  · rcases Nat.le_total i j with hij | hij
    · exact Or.inl (Or.inr ⟨h, hij⟩)
    · exact Or.inr (Or.inr ⟨h.symm, hij⟩)
  · exact Or.inr (Or.inl h)

theorem argsortRel_trans (sims : List ℚ) (a b c : Nat)
    (h1 : argsortRel sims a b) (h2 : argsortRel sims b c) :
    argsortRel sims a c := by
  unfold argsortRel at h1 h2 ⊢
  rcases h1 with h1 | ⟨h1, h1'⟩ <;> rcases h2 with h2 | ⟨h2, h2'⟩
  · exact Or.inl (h1.trans h2)
  · exact Or.inl (h2 ▸ h1)
  · exact Or.inl (h1 ▸ h2)
  · exact Or.inr ⟨h1.trans h2, h1'.trans h2'⟩

theorem argsort_sorted (sims : List ℚ) :
    (argsort sims).Pairwise (argsortRel sims) :=
  @List.sorted_insertionSort Nat (argsortRel sims) _
    ⟨argsortRel_total sims⟩ ⟨argsortRel_trans sims⟩ _

theorem argsort_perm (sims : List ℚ) :
    (argsort sims).Perm (List.range sims.length) :=
  List.perm_insertionSort _ _

theorem argsort_nodup (sims : List ℚ) : (argsort sims).Nodup :=
  (argsort_perm sims).symm.nodup (List.nodup_range _)

theorem mem_argsort (sims : List ℚ) (i : Nat) :
    i ∈ argsort sims ↔ i < sims.length := by
  rw [(argsort_perm sims).mem_iff, List.mem_range]

theorem pySliceLast_sublist {α : Type} (l : List α) (k : Nat) :
    (pySliceLast l k).Sublist l := by
  unfold pySliceLast
  split
  · exact List.Sublist.refl l
  · exact List.drop_sublist _ l

theorem similarIdx_sub (sims : List ℚ) (k : Nat) :
    ∀ i ∈ similarIdx sims k, i < sims.length := by
  intro i hi
  have h1 := (List.mem_filter.1 hi).1
  have h2 := (pySliceLast_sublist (argsort sims) k).mem (List.mem_reverse.1 h1)
  exact (mem_argsort sims i).1 h2

theorem similarIdx_pairwise (sims : List ℚ) (k : Nat) :
    (similarIdx sims k).Pairwise (fun i j => argsortRel sims j i) := by
  have h1 : (pySliceLast (argsort sims) k).Pairwise (argsortRel sims) :=
    List.Pairwise.sublist (pySliceLast_sublist _ k) (argsort_sorted sims)
  have h2 : ((pySliceLast (argsort sims) k).reverse).Pairwise
      (fun i j => argsortRel sims j i) := List.pairwise_reverse.2 h1
  exact List.Pairwise.sublist (List.filter_sublist _) h2

theorem similarIdx_nodup (sims : List ℚ) (k : Nat) :
    (similarIdx sims k).Nodup := by
  have h1 : (pySliceLast (argsort sims) k).Nodup :=
    (argsort_nodup sims).sublist (pySliceLast_sublist _ k)
  have h2 : ((pySliceLast (argsort sims) k).reverse).Nodup :=
    List.nodup_reverse.2 h1
  exact h2.sublist (List.filter_sublist _)

theorem filter_singleton_of_unique (p : Nat → Bool) :
    ∀ (l : List Nat) (a : Nat), l.Nodup → a ∈ l → p a = true →
      (∀ b ∈ l, b ≠ a → p b = false) → l.filter p = [a] := by
  intro l
  induction l with
  | nil => intro a _ ha; exact absurd ha (List.not_mem_nil a)
  | cons x xs ih =>
    intro a hnd hmem hpa hothers
    simp only [List.nodup_cons] at hnd
    rcases List.mem_cons.1 hmem with rfl | hmem'
    · rw [List.filter_cons, if_pos hpa]
      have hnil : xs.filter p = [] := by
        rw [List.filter_eq_nil_iff]
        intro b hb
        have hba : b ≠ a := fun hba => hnd.1 (hba ▸ hb)
        simp [hothers b (List.mem_cons_of_mem _ hb) hba]
      rw [hnil]
    · have hxa : x ≠ a := fun hx => hnd.1 (hx ▸ hmem')
      rw [List.filter_cons,
        if_neg (by simp [hothers x (List.mem_cons_self _ _) hxa])]
      exact ih a hnd.2 hmem' hpa
        (fun b hb => hothers b (List.mem_cons_of_mem _ hb))

theorem lookupIndex_indexAdd (idx : EntityIndex) (k : String) (t : Triplet)
    (e : String) :
    lookupIndex (indexAdd idx k t) e =
      if e = k then some (bucketOf idx e ++ [t]) else lookupIndex idx e := by
  induction idx with
  | nil =>
    by_cases h : e = k
    · subst h
      simp [indexAdd, lookupIndex, bucketOf]
    · simp [indexAdd, lookupIndex, bucketOf, h, Ne.symm h]
  | cons kb rest ih =>
    obtain ⟨k', b'⟩ := kb
    by_cases hk : k' = k
    · subst hk
      by_cases he : e = k'
      · subst he
        simp [indexAdd, lookupIndex, bucketOf]
      · simp [indexAdd, lookupIndex, bucketOf, he, Ne.symm he]
    · by_cases he : e = k'
      · subst he
        simp [indexAdd, lookupIndex, bucketOf, hk]
      · simp only [indexAdd, if_neg hk, lookupIndex, if_neg (Ne.symm he)]
        rw [ih]
        have hb : bucketOf ((k', b') :: rest) e = bucketOf rest e := by
          simp [bucketOf, lookupIndex, Ne.symm he]
        rw [hb]

theorem bucketOf_indexAdd (idx : EntityIndex) (k : String) (t : Triplet)
    (e : String) :
    bucketOf (indexAdd idx k t) e =
      if e = k then bucketOf idx e ++ [t] else bucketOf idx e := by
  unfold bucketOf
  rw [lookupIndex_indexAdd]
  by_cases h : e = k <;> simp [h, bucketOf]

theorem bucketOf_foldl (ts : List Triplet) :
    ∀ (idx : EntityIndex) (e : String),
      bucketOf (ts.foldl (fun idx t => indexAdd (indexAdd idx t.1 t) t.2.2 t) idx) e =
        bucketOf idx e ++ occList ts e := by
  induction ts with
  | nil =>
    intro idx e
    simp [occList]
  | cons t ts ih =>
    intro idx e
    rw [List.foldl_cons, ih, bucketOf_indexAdd, bucketOf_indexAdd]
    unfold occList
    rw [List.flatMap_cons]
    by_cases h2 : e = t.1
    · subst h2
      by_cases h1 : t.1 = t.2.2
      · simp [h1]
      · simp [h1, Ne.symm h1]
    · by_cases h1 : e = t.2.2
      · subst h1
        simp [h2, Ne.symm h2]
      · simp [h1, h2, Ne.symm h1, Ne.symm h2]

theorem bucketOf_create (ts : List Triplet) (e : String) :
    bucketOf (create_entity_index ts) e = occList ts e := by
  unfold create_entity_index
  rw [bucketOf_foldl]
  simp [bucketOf, lookupIndex]

theorem mem_occList (ts : List Triplet) (e : String) (t : Triplet) :
    t ∈ occList ts e ↔ t ∈ ts ∧ (t.1 = e ∨ t.2.2 = e) := by
  unfold occList
  rw [List.mem_flatMap]
  constructor
  · rintro ⟨a, ha, hmem⟩
    rcases List.mem_append.1 hmem with h | h
    · by_cases h1 : a.1 = e
      · rw [if_pos h1] at h
        have hta := List.mem_singleton.1 h
        subst hta
        exact ⟨ha, Or.inl h1⟩
      · rw [if_neg h1] at h
        exact absurd h (List.not_mem_nil t)
    · by_cases h1 : a.2.2 = e
      · rw [if_pos h1] at h
        have hta := List.mem_singleton.1 h
        subst hta
        exact ⟨ha, Or.inr h1⟩
      · rw [if_neg h1] at h
        exact absurd h (List.not_mem_nil t)
  · rintro ⟨ht, h | h⟩
    · exact ⟨t, ht, List.mem_append.2 (Or.inl (by rw [if_pos h]; simp))⟩
    · exact ⟨t, ht, List.mem_append.2 (Or.inr (by rw [if_pos h]; simp))⟩

theorem keys_indexAdd_mem (idx : EntityIndex) (k : String) (t : Triplet) :
    ∀ x ∈ (indexAdd idx k t).map Prod.fst,
      x ∈ idx.map Prod.fst ∨ x = k := by
  induction idx with
  | nil =>
    intro x hx
    simp [indexAdd] at hx
    exact Or.inr hx
  | cons kb rest ih =>
    obtain ⟨k', b'⟩ := kb
    intro x hx
    by_cases h : k' = k
    · simp only [indexAdd, if_pos h, List.map_cons, List.mem_cons] at hx ⊢
      tauto
    · simp only [indexAdd, if_neg h, List.map_cons, List.mem_cons] at hx ⊢
      rcases hx with h1 | h1
      · tauto
      · have := ih x h1
        tauto

theorem keys_indexAdd_nodup (idx : EntityIndex) (k : String) (t : Triplet)
    (h : (idx.map Prod.fst).Nodup) :
    ((indexAdd idx k t).map Prod.fst).Nodup := by
  induction idx with
  | nil => simp [indexAdd]
  | cons kb rest ih =>
    obtain ⟨k', b'⟩ := kb
    simp only [List.map_cons, List.nodup_cons] at h
    by_cases hk : k' = k
    · simp only [indexAdd, if_pos hk, List.map_cons, List.nodup_cons]
      exact ⟨h.1, h.2⟩
    · simp only [indexAdd, if_neg hk, List.map_cons, List.nodup_cons]
      refine ⟨fun hmem => ?_, ih h.2⟩
      rcases keys_indexAdd_mem rest k t k' hmem with h1 | h1
      · exact h.1 h1
      · exact hk h1

theorem create_keys_nodup (ts : List Triplet) :
    ((create_entity_index ts).map Prod.fst).Nodup := by
  suffices h : ∀ (idx : EntityIndex), (idx.map Prod.fst).Nodup →
      ((ts.foldl (fun idx t => indexAdd (indexAdd idx t.1 t) t.2.2 t) idx).map
        Prod.fst).Nodup by
    exact h [] (by simp)
  induction ts with
  | nil => intro idx hidx; exact hidx
  | cons t ts ih =>
    intro idx hidx
    rw [List.foldl_cons]
    exact ih _ (keys_indexAdd_nodup _ _ _ (keys_indexAdd_nodup _ _ _ hidx))

theorem threshold_lt_one : (3:ℚ)/10 < 1 := by norm_num

theorem threshold_lt_half : (3:ℚ)/10 < 1/2 := by norm_num

theorem zero_le_threshold : (0:ℚ) ≤ 3/10 := by norm_num

/-! ## Claim theorems -/

/-- C1: one run of the consensus loop on a single item performs at
most 3 review passes: the iteration over
`process_feedback_iteration` in `run` executes at most
`max_iterations = 3` times, regardless of what text any model
response (hence any review evaluation) contains — the bound holds for
every oracle `c : Ctx` and every starting state. -/
theorem review_loop_bounded (c : Ctx) (question description
    experts_opinions expert_diagnosis : String) :
    (run_review_phase c question description experts_opinions
      expert_diagnosis).2 ≤ 3 :=
  feedback_loop_count_le c question description max_iterations 0 _

/-- C5: `retrieve_entity_knowledge(e, n)` returns at most `n`
triplets, for every retriever state, entity string and `n`. -/
theorem retrieve_entity_knowledge_budget (r : Retriever)
    (entity : String) (n : Nat) :
    (retrieve_entity_knowledge r entity n).length ≤ n := by
  have h : ∀ l : List Triplet, (l.take n).length ≤ n := by
    intro l; simp [List.length_take]
  exact h _

/-- C9 (amended): `retrieve_relationship_knowledge` returns exactly
the first at-most-5 triplets, in store order, whose stored predicate
is a case-insensitive substring match (either direction) with the
query predicate AND whose stored subject matches the query subject or
whose stored object matches the query object (case-insensitive
substring, either direction) — the code never compares the stored
subject with the query object or vice versa. -/
theorem retrieve_relationship_amended (triplets : List Triplet)
    (subject predicate obj : String) :
    retrieve_relationship_knowledge triplets subject predicate obj =
      (triplets.filter (rel_match subject predicate obj)).take 5 ∧
    (retrieve_relationship_knowledge triplets subject predicate obj).length ≤ 5 ∧
    (retrieve_relationship_knowledge triplets subject predicate obj).Sublist triplets ∧
    ∀ t ∈ retrieve_relationship_knowledge triplets subject predicate obj,
      rel_match subject predicate obj t = true := by
  have h1 : retrieve_relationship_knowledge triplets subject predicate obj =
      (triplets.filter (rel_match subject predicate obj)).take 5 := by
    unfold retrieve_relationship_knowledge
    rw [foldl_append_eq_filter]
    simp
  refine ⟨h1, ?_, ?_, ?_⟩
  · rw [h1]; simp [List.length_take]
  · rw [h1]; exact (List.take_sublist _ _).trans (List.filter_sublist _)
  · intro t ht
    rw [h1] at ht
    exact (List.mem_filter.1 (List.mem_of_mem_take ht)).2

/-- C9 counterexample: the claim's cross-wise match condition holds
for query `(subject := "x", predicate := "p", object := "a")` against
the stored triplet `("a", "p", "x")` (the stored subject `"a"`
matches the query object `"a"`), so the claim says this triplet is
returned — but the code compares subject only with subject and object
only with object, and returns nothing. -/
theorem retrieve_relationship_claim_counterexample :
    rel_match_claim "x" "p" "a" ("a", "p", "x") = true ∧
    retrieve_relationship_knowledge [("a", "p", "x")] "x" "p" "a" = [] :=
  ⟨by decide, by decide⟩

/-- C2: when processing an item raises an exception
(`process idx = .error msg`), the exception is caught at the per-item
boundary of `run`: an entry whose prediction is the textual error
result `"Error: " ++ msg` is recorded in the ledger for that index,
and the run continues folding over the remaining to-do items instead
of aborting. -/
theorem per_item_error_boundary (dataset : Nat → String × String)
    (process : Nat → Except String String) (pre post : List Nat)
    (idx : Nat) (ledger : List Entry) (msg : String)
    (h : process idx = .error msg) :
    run_items dataset process (pre ++ idx :: post) ledger =
      run_items dataset process post
        (format_json_out_put (dataset idx).1 (dataset idx).2
          ("Error: " ++ msg) idx (run_items dataset process pre ledger)) ∧
    (⟨idx, (dataset idx).1, (dataset idx).2, "Error: " ++ msg⟩ : Entry) ∈
      format_json_out_put (dataset idx).1 (dataset idx).2
        ("Error: " ++ msg) idx (run_items dataset process pre ledger) := by
  constructor
  · simp only [run_items, List.foldl_append, List.foldl_cons]
    congr 1
    simp [process_item, h]
  · exact mem_format_json_out_put _ _ _ _ _

/-- Witness for C2: a concrete one-item run whose processing fails. -/
theorem per_item_error_boundary_witness :
    run_items (fun _ => ("q", "a")) (fun _ => Except.error "boom")
        ([] ++ 5 :: []) [] =
      run_items (fun _ => ("q", "a")) (fun _ => Except.error "boom") []
        (format_json_out_put "q" "a" ("Error: " ++ "boom") 5
          (run_items (fun _ => ("q", "a")) (fun _ => Except.error "boom") [] [])) ∧
    (⟨5, "q", "a", "Error: " ++ "boom"⟩ : Entry) ∈
      format_json_out_put "q" "a" ("Error: " ++ "boom") 5
        (run_items (fun _ => ("q", "a")) (fun _ => Except.error "boom") [] []) :=
  per_item_error_boundary (fun _ => ("q", "a")) (fun _ => Except.error "boom")
    [] [] 5 [] "boom" rfl

/-- C8 (amended): for every ledger state whose entries carry pairwise
distinct indices — which includes every state `format_json_out_put`
itself ever writes, as the third conjunct shows it preserves
distinctness — calling the upsert twice with the same index but
different predictions leaves exactly one entry for that index,
holding the latest prediction; and after every upsert call, on any
prior state whatsoever, the stored array is sorted ascending by
index. -/
theorem ledger_upsert_amended (L : List Entry)
    (h : (L.map Entry.index).Nodup) (q g p1 p2 : String) (idx : Nat) :
    (format_json_out_put q g p2 idx
        (format_json_out_put q g p1 idx L)).filter
        (fun r => decide (r.index = idx)) = [⟨idx, q, g, p2⟩] ∧
    ((format_json_out_put q g p2 idx
        (format_json_out_put q g p1 idx L)).map Entry.index).Nodup ∧
    ∀ (q' g' p' : String) (i' : Nat) (M : List Entry),
      (format_json_out_put q' g' p' i' M).Pairwise
        (fun a b => a.index ≤ b.index) := by
  have h1 := format_json_nodup q g p1 idx L h
  exact ⟨format_json_filter q g p2 idx _ h1, format_json_nodup q g p2 idx _ h1,
    fun q' g' p' i' M => format_json_sorted q' g' p' i' M⟩

/-- Witness for C8 at the empty initial ledger. -/
theorem ledger_upsert_amended_witness :
    (format_json_out_put "q" "g" "p2" 0
        (format_json_out_put "q" "g" "p1" 0 [])).filter
      (fun r => decide (r.index = 0)) = [⟨0, "q", "g", "p2"⟩] :=
  (ledger_upsert_amended [] (by simp) "q" "g" "p1" "p2" 0).1

/-- C7 (amended): in the index built by `create_entity_index`, every
triplet `(s,p,o)` of the store appears in the bucket of the key `e`
exactly when `e` is its subject or its object — so it appears under
exactly two distinct keys when `s ≠ o`, and under the single key
`s = o` (twice in that one bucket) otherwise; every bucket equals the
list of store triplets mentioning its key, in store order (a triplet
with subject = object appearing twice consecutively); and the index
keys are pairwise distinct. -/
theorem entity_index_amended (ts : List Triplet) (t : Triplet)
    (h : t ∈ ts) :
    (∀ e : String, t ∈ bucketOf (create_entity_index ts) e ↔
      (e = t.1 ∨ e = t.2.2)) ∧
    (∀ e : String, bucketOf (create_entity_index ts) e = occList ts e) ∧
    ((create_entity_index ts).map Prod.fst).Nodup := by
  refine ⟨?_, fun e => bucketOf_create ts e, create_keys_nodup ts⟩
  intro e
  rw [bucketOf_create, mem_occList]
  constructor
  · rintro ⟨-, h1 | h1⟩
    · exact Or.inl h1.symm
    · exact Or.inr h1.symm
  · rintro (rfl | rfl)
    · exact ⟨h, Or.inl rfl⟩
    · exact ⟨h, Or.inr rfl⟩

/-- Witness for C7: the triplet `("a","p","b")` is found in the
bucket of its subject `"a"`. -/
theorem entity_index_amended_witness :
    (("a", "p", "b") : Triplet) ∈
      bucketOf (create_entity_index [("a", "p", "b")]) "a" :=
  ((entity_index_amended [("a", "p", "b")] ("a", "p", "b")
      (List.mem_singleton.2 rfl)).1 "a").2 (Or.inl rfl)

/-- C7 counterexample: for the store `[("a","p","a")]` (subject =
object) the built index has a single key, and the triplet appears
under exactly one key — not the exactly two keys the claim asserts
for every triplet. -/
theorem entity_index_claim_counterexample :
    (create_entity_index [("a", "p", "a")]).length = 1 ∧
    ((create_entity_index [("a", "p", "a")]).filter
      (fun kv => decide ((("a", "p", "a") : Triplet) ∈ kv.2))).length = 1 := by
  constructor <;> decide

/-- C4 (amended): `find_similar_entities` returns only entities whose
similarity strictly exceeds 0.3; when `top_k ≥ 1` it returns at most
`top_k` entities (for `top_k = 0` the slice `[-0:]` selects the
whole array, see the counterexample and C10); the result is ordered
by non-increasing similarity — with no tie order guaranteed, since
`np.argsort`'s default quicksort is not stable (in particular the
claim's construction-order tie rule is not honoured: at small array
sizes, where numpy does sort stably, the `[::-1]` reversal yields the
*reverse* of construction order, as the counterexample shows); and
when no indexed entity clears the threshold the result is the empty
sequence, not an error.  Every conjunct below is insensitive to the
model's fixed argsort tie order. -/
theorem find_similar_entities_amended (entities : List String)
    (sims : List ℚ) (top_k : Nat) :
    (∀ p ∈ find_similar_entities entities sims top_k, (3:ℚ)/10 < p.2) ∧
    (1 ≤ top_k → (find_similar_entities entities sims top_k).length ≤ top_k) ∧
    (find_similar_entities entities sims top_k).Pairwise
      (fun p q' => q'.2 ≤ p.2) ∧
    ((∀ i, i < sims.length → sims.getD i 0 ≤ 3/10) →
      find_similar_entities entities sims top_k = []) := by
  refine ⟨?_, ?_, ?_, ?_⟩
  · intro p hp
    rcases List.mem_map.1 hp with ⟨i, hi, rfl⟩
    have h2 := (List.mem_filter.1 hi).2
    simpa using h2
  · intro hk
    have h1 : (find_similar_entities entities sims top_k).length =
        (similarIdx sims top_k).length := List.length_map _ _
    have h2 : (similarIdx sims top_k).length ≤
        (pySliceLast (argsort sims) top_k).length := by
      have h3 := List.length_filter_le
        (fun i => decide ((3:ℚ)/10 < sims.getD i 0))
        ((pySliceLast (argsort sims) top_k).reverse)
      simpa [similarIdx] using h3
    have h4 : (pySliceLast (argsort sims) top_k).length ≤ top_k := by
      unfold pySliceLast
      rw [if_neg (by omega), List.length_drop]
      omega
    omega
  · unfold find_similar_entities
    rw [List.pairwise_map]
    refine (similarIdx_pairwise sims top_k).imp ?_
    intro i j h
    rcases h with h | ⟨h, _⟩
    · exact le_of_lt h
    · exact le_of_eq h
  · intro hall
    unfold find_similar_entities
    have hempty : similarIdx sims top_k = [] := by
      unfold similarIdx
      rw [List.filter_eq_nil_iff]
      intro i hi
      have hlen : i < sims.length := by
        have hm := (pySliceLast_sublist (argsort sims) top_k).mem
          (List.mem_reverse.1 hi)
        exact (mem_argsort sims i).1 hm
      simp only [decide_eq_true_eq]
      exact not_lt.2 (hall i hlen)
    rw [hempty]
    rfl

/-- Witness for C4 at a one-entity index and `top_k = 1`. -/
theorem find_similar_entities_amended_witness :
    (find_similar_entities ["a"] [(1:ℚ)/2] 1).length ≤ 1 :=
  (find_similar_entities_amended ["a"] [(1:ℚ)/2] 1).2.1 (by decide)

/-- C4 counterexample: with one entity of similarity 1/2 and
`top_k = 0`, the function returns one entity, not at most zero
(`[-0:]` selects the whole array); and with two entities tied at
similarity 1/2 and `top_k = 2`, the tie is returned in *reverse*
construction order — entity 1 before entity 0 — while the claim
promises construction order.  At this array size numpy's argsort is
an insertion sort, which sorts the ties stably to `[0, 1]`, and the
`[::-1]` reversal flips them, so this concrete outcome is the
program's actual output, not a model artifact. -/
theorem find_similar_entities_claim_counterexample :
    ¬ ((find_similar_entities ["a"] [(1:ℚ)/2] 0).length ≤ 0) ∧
    find_similar_entities ["a", "b"] [(1:ℚ)/2, (1:ℚ)/2] 2 =
      [("b", (1:ℚ)/2), ("a", (1:ℚ)/2)] := by
  constructor
  · have hp : (decide ((3:ℚ)/10 < [((1:ℚ)/2)].getD 0 0)) = true := by
      rw [decide_eq_true_eq]
      simpa using threshold_lt_half
    have e3 : similarIdx [(1:ℚ)/2] 0 =
        List.filter (fun i => decide ((3:ℚ)/10 < [((1:ℚ)/2)].getD i 0)) [0] :=
      rfl
    have e4 : similarIdx [(1:ℚ)/2] 0 = [0] := by
      rw [e3, List.filter_cons, if_pos hp]
      rfl
    have h1 : find_similar_entities ["a"] [(1:ℚ)/2] 0 = [("a", (1:ℚ)/2)] := by
      unfold find_similar_entities
      rw [e4]
      rfl
    rw [h1]
    decide
  · have hr : argsortRel [(1:ℚ)/2, (1:ℚ)/2] 0 1 := Or.inr ⟨rfl, by omega⟩
    have hp0 : (decide ((3:ℚ)/10 < [((1:ℚ)/2), (1:ℚ)/2].getD 0 0)) = true := by
      rw [decide_eq_true_eq]
      simpa using threshold_lt_half
    have hp1 : (decide ((3:ℚ)/10 < [((1:ℚ)/2), (1:ℚ)/2].getD 1 0)) = true := by
      rw [decide_eq_true_eq]
      simpa using threshold_lt_half
    have ea : argsort [(1:ℚ)/2, (1:ℚ)/2] =
        if argsortRel [(1:ℚ)/2, (1:ℚ)/2] 0 1 then [0, 1] else [1, 0] := rfl
    have ea2 : argsort [(1:ℚ)/2, (1:ℚ)/2] = [0, 1] := by
      rw [ea, if_pos hr]
    have es : similarIdx [(1:ℚ)/2, (1:ℚ)/2] 2 =
        List.filter
          (fun i => decide ((3:ℚ)/10 < [((1:ℚ)/2), (1:ℚ)/2].getD i 0))
          [1, 0] := by
      unfold similarIdx pySliceLast
      rw [ea2, if_neg (by omega)]
      rfl
    have es2 : similarIdx [(1:ℚ)/2, (1:ℚ)/2] 2 = [1, 0] := by
      rw [es, List.filter_cons, if_pos hp1, List.filter_cons, if_pos hp0]
      rfl
    show find_similar_entities ["a", "b"] [(1:ℚ)/2, (1:ℚ)/2] 2 =
      [("b", (1:ℚ)/2), ("a", (1:ℚ)/2)]
    unfold find_similar_entities
    rw [es2]
    rfl

/-- C10: with `top_k = 0`, the slice `[-0:]` selects the entire
sorted index array, so `find_similar_entities` returns every indexed
entity whose similarity exceeds 0.3 — in particular the result is not
empty whenever any indexed entity clears the threshold. -/
theorem find_similar_top_k_zero (entities : List String) (sims : List ℚ)
    (i : Nat) (h1 : i < sims.length) (h2 : (3:ℚ)/10 < sims.getD i 0) :
    i ∈ similarIdx sims 0 ∧
    (entities.getD i "", sims.getD i 0) ∈
      find_similar_entities entities sims 0 ∧
    find_similar_entities entities sims 0 ≠ [] := by
  have hmem : i ∈ argsort sims := (mem_argsort sims i).2 h1
  have hs : pySliceLast (argsort sims) 0 = argsort sims := by
    unfold pySliceLast
    rw [if_pos rfl]
  have hi : i ∈ similarIdx sims 0 := by
    unfold similarIdx
    rw [hs, List.mem_filter]
    exact ⟨List.mem_reverse.2 hmem, by simpa using h2⟩
  have hmap : (entities.getD i "", sims.getD i 0) ∈
      find_similar_entities entities sims 0 :=
    List.mem_map_of_mem _ hi
  refine ⟨hi, hmap, fun hnil => ?_⟩
  rw [hnil] at hmap
  exact absurd hmap (List.not_mem_nil _)

/-- Witness for C10 at a one-entity index of similarity 1. -/
theorem find_similar_top_k_zero_witness :
    0 ∈ similarIdx [(1:ℚ)] 0 ∧
    ("a", (1:ℚ)) ∈ find_similar_entities ["a"] [(1:ℚ)] 0 ∧
    find_similar_entities ["a"] [(1:ℚ)] 0 ≠ [] :=
  find_similar_top_k_zero ["a"] [(1:ℚ)] 0 (by decide)
    (by simpa using threshold_lt_one)

/-- C6: with the store holding exactly
`("lung nodule","located_in","right lung")` and
`("lung nodule","has_size","2cm")`, and the index built from them,
`retrieve_entity_knowledge("Lung Nodule", 4)` returns both triplets:
the exact lookup misses (lookup is case-sensitive), and the fuzzy
path supplies both triplets from the bucket of `"lung nodule"`.  The
externally computed cosine similarities enter as hypotheses matching
the actual vectorization: the query normalizes to the identical
string `"lung nodule"` (similarity 1 > 0.3), while `"right lung"`
(≈ 0.279) and `"2cm"` (0) stay at or below the 0.3 threshold. -/
theorem lung_nodule_scenario (sim : String → List ℚ)
    (hlen : (sim "Lung Nodule").length = 3)
    (h0 : (3:ℚ)/10 < (sim "Lung Nodule").getD 0 0)
    (h1 : (sim "Lung Nodule").getD 1 0 ≤ 3/10)
    (h2 : (sim "Lung Nodule").getD 2 0 ≤ 3/10) :
    retrieve_entity_knowledge (lungRetriever sim) "Lung Nodule" 4 =
      [t_lung1, t_lung2] := by
  have hlen3 : (argsort (sim "Lung Nodule")).length = 3 := by
    rw [(argsort_perm (sim "Lung Nodule")).length_eq, List.length_range, hlen]
  have hslice : pySliceLast (argsort (sim "Lung Nodule")) 3 =
      argsort (sim "Lung Nodule") := by
    unfold pySliceLast
    rw [if_neg (by omega), hlen3]
    simp
  have hmem0 : (0 : Nat) ∈ (argsort (sim "Lung Nodule")).reverse := by
    rw [List.mem_reverse, mem_argsort, hlen]
    omega
  have hnd : ((argsort (sim "Lung Nodule")).reverse).Nodup :=
    List.nodup_reverse.2 (argsort_nodup (sim "Lung Nodule"))
  have hothers : ∀ b ∈ (argsort (sim "Lung Nodule")).reverse, b ≠ 0 →
      (fun i => decide ((3:ℚ)/10 < (sim "Lung Nodule").getD i 0)) b = false := by
    intro b hb hb0
    have hblt : b < 3 := by
      have hm := (mem_argsort (sim "Lung Nodule") b).1 (List.mem_reverse.1 hb)
      rw [hlen] at hm
      omega
    have hb12 : b = 1 ∨ b = 2 := by omega
    rcases hb12 with rfl | rfl
    · show decide ((3:ℚ)/10 < (sim "Lung Nodule").getD 1 0) = false
      exact decide_eq_false_iff_not.2 (not_lt.2 h1)
    · show decide ((3:ℚ)/10 < (sim "Lung Nodule").getD 2 0) = false
      exact decide_eq_false_iff_not.2 (not_lt.2 h2)
  have hsim : similarIdx (sim "Lung Nodule") 3 = [0] := by
    unfold similarIdx
    rw [hslice]
    exact filter_singleton_of_unique _ _ 0 hnd hmem0 (by simpa using h0) hothers
  have hfse : find_similar_entities (Retriever.entity_list (lungRetriever sim))
      (Retriever.sim (lungRetriever sim) "Lung Nodule") 3 =
      [("lung nodule", (sim "Lung Nodule").getD 0 0)] := by
    unfold find_similar_entities
    rw [show Retriever.sim (lungRetriever sim) "Lung Nodule" =
      sim "Lung Nodule" from rfl]
    rw [hsim]
    rfl
  have hnone0 : lookupIndex lungIndex "Lung Nodule" = none := by decide
  have hsome0 : lookupIndex lungIndex "lung nodule" =
      some [t_lung1, t_lung2] := by decide
  have hnone : lookupIndex (lungRetriever sim).entity_index "Lung Nodule" =
      none := hnone0
  have hsome : lookupIndex (lungRetriever sim).entity_index "lung nodule" =
      some [t_lung1, t_lung2] := hsome0
  unfold retrieve_entity_knowledge
  rw [hfse]
  simp [hnone, hsome]

/-- Witness for C6: similarity scores 1, 0, 0 (the identical
normalized entity at full similarity, the others below threshold). -/
theorem lung_nodule_scenario_witness :
    retrieve_entity_knowledge
        (lungRetriever (fun _ => [1, 0, 0])) "Lung Nodule" 4 =
      [t_lung1, t_lung2] :=
  lung_nodule_scenario (fun _ => [1, 0, 0]) rfl
    (by simpa using threshold_lt_one)
    (by simpa using zero_le_threshold)
    (by simpa using zero_le_threshold)

/-- C3: whenever the review-evaluation text contains the phrase
"all opinions are consistent" after lower-casing (the code checks the
lower-cased text, making the test case-insensitive),
`process_feedback_iteration` returns the current opinions and
diagnosis unchanged with a stop signal, and the `run` loop, at any
remaining-iteration budget, performs no further review passes: it
ends with the state unchanged after this single pass, proceeding to
the integration step. -/
theorem convergence_stops_loop (c : Ctx) (question description
    experts_opinions expert_diagnosis : String) (iteration : Nat)
    (h : strContains (strLower (evaluation_text c question description
        experts_opinions expert_diagnosis iteration))
      "all opinions are consistent" = true) :
    process_feedback_iteration c question description experts_opinions
        expert_diagnosis iteration =
      (experts_opinions, expert_diagnosis, false) ∧
    ∀ fuel : Nat,
      feedback_loop c question description (fuel + 1) iteration
          (experts_opinions, expert_diagnosis) =
        ((experts_opinions, expert_diagnosis), 1) := by
  have h1 : process_feedback_iteration c question description experts_opinions
      expert_diagnosis iteration =
      (experts_opinions, expert_diagnosis, false) := by
    unfold process_feedback_iteration
    rw [if_pos h]
  refine ⟨h1, fun fuel => ?_⟩
  simp [feedback_loop, h1]

/-- Witness for C3: an oracle that always answers
"All opinions are consistent." stops the loop after one pass. -/
theorem convergence_stops_loop_witness :
    process_feedback_iteration consistentCtx "q" "d" "op" "dg" 0 =
        ("op", "dg", false) ∧
    feedback_loop consistentCtx "q" "d" 3 0 ("op", "dg") =
        (("op", "dg"), 1) := by
  have h := convergence_stops_loop consistentCtx "q" "d" "op" "dg" 0 (by decide)
  exact ⟨h.1, h.2 2⟩

/-- C8 counterexample: the claim quantifies over every ledger state,
but on a (never code-produced) state that already holds two entries
for index 5, two upserts for index 5 still leave two entries for that
index — the update loop replaces only the first match. -/
theorem ledger_claim_counterexample :
    ((format_json_out_put "q" "g" "p2" 5 (format_json_out_put "q" "g" "p1" 5
        [⟨5, "q", "g", "x"⟩, ⟨5, "q", "g", "y"⟩])).filter
      (fun r => decide (r.index = 5))).length = 2 := by decide

end SMR
